import Mathlib

/-!
# Dialogs provider (`modules/gui/qt4/dialogs_provider.hpp`)

A shallow embedding of the logic carried by the header:

* the `EXT_FILTER_*` flag constants and the `ADD_FILTER_*` string macros;
* the default argument of `showSimpleOpen`;
* the singleton accessors `getInstance()`, `getInstance( intf_thread_t * )`
  and `killInstance()` around the static pointer `instance`.

`QString` is modelled by `String` (`+=` is append), the C `int` holding a filter
mask by `Int` with `Int.land` / `Int.lor` for `&` and `|` (no arithmetic is done on
masks, so nothing can overflow), a nullable pointer by `Option` or by an address
with `0` as null.
-/

/-! ## Filter flags -/

/-- Source line 36: `EXT_FILTER_MEDIA 0x01`. -/
def EXT_FILTER_MEDIA : Int := 0x01
/-- Source line 37: `EXT_FILTER_VIDEO 0x02`. -/
def EXT_FILTER_VIDEO : Int := 0x02
/-- Source line 38: `EXT_FILTER_AUDIO 0x04`. -/
def EXT_FILTER_AUDIO : Int := 0x04
/-- Source line 39: `EXT_FILTER_PLAYLIST 0x08`. -/
def EXT_FILTER_PLAYLIST : Int := 0x08
/-- Source line 40: `EXT_FILTER_SUBTITLE 0x10`. -/
def EXT_FILTER_SUBTITLE : Int := 0x10

/-- The five file categories, one per `EXT_FILTER_*` flag, in the order of the header. -/
inductive Category where
  | Media
  | Video
  | Audio
  | Playlist
  | Subtitle
deriving DecidableEq, Repr, Fintype

/-- The categories in the fixed order Media, Video, Audio, Playlist, Subtitle. -/
def Category.ordered : List Category :=
  [Category.Media, Category.Video, Category.Audio, Category.Playlist, Category.Subtitle]

/-- The flag constant of a category. -/
def Category.flag : Category → Int
  | Category.Media => EXT_FILTER_MEDIA
  | Category.Video => EXT_FILTER_VIDEO
  | Category.Audio => EXT_FILTER_AUDIO
  | Category.Playlist => EXT_FILTER_PLAYLIST
  | Category.Subtitle => EXT_FILTER_SUBTITLE

/-- The bit position of the flag of a category: `flag c = 2 ^ bit c`. -/
def Category.bit : Category → Nat
  | Category.Media => 0
  | Category.Video => 1
  | Category.Audio => 2
  | Category.Playlist => 3
  | Category.Subtitle => 4

/-- The label literal each `ADD_FILTER_*` macro hands to the translation lookup
(the subtitle macro really says "Subtitles Files"). -/
def Category.label : Category → String
  | Category.Media => "Media Files"
  | Category.Video => "Video Files"
  | Category.Audio => "Audio Files"
  | Category.Playlist => "Playlist Files"
  | Category.Subtitle => "Subtitles Files"

/-- The bitwise OR of the flags of a list of categories, `f1 | f2 | ... | 0`. -/
def orFlags : List Category → Int
  | [] => 0
  | c :: cs => Int.lor c.flag (orFlags cs)

/-- The mask of a subset `S` of the categories: the OR of the flags of its members. -/
def maskOf (S : Finset Category) : Int :=
  orFlags (Category.ordered.filter (fun c => c ∈ S))

/-! ## Filter string macros -/

/-- The string constants `EXTENSIONS_MEDIA`, ... used by the macros. They are defined in
another header (`vlc_interface.h`), so they are taken as parameters here. -/
structure Extensions where
  EXTENSIONS_MEDIA : String
  EXTENSIONS_VIDEO : String
  EXTENSIONS_AUDIO : String
  EXTENSIONS_PLAYLIST : String
  EXTENSIONS_SUBTITLE : String

/-- The extension list constant of a category. -/
def Extensions.of (x : Extensions) : Category → String
  | Category.Media => x.EXTENSIONS_MEDIA
  | Category.Video => x.EXTENSIONS_VIDEO
  | Category.Audio => x.EXTENSIONS_AUDIO
  | Category.Playlist => x.EXTENSIONS_PLAYLIST
  | Category.Subtitle => x.EXTENSIONS_SUBTITLE

/-- Source lines 42-46, `ADD_FILTER_MEDIA( string )`; `tr` is the translation lookup `_( )`. -/
def ADD_FILTER_MEDIA (tr : String → String) (x : Extensions) (string : String) : String :=
  let string := string ++ tr "Media Files"
  let string := string ++ " ( "
  let string := string ++ x.EXTENSIONS_MEDIA
  let string := string ++ ");;"
  string

/-- Source lines 47-51, `ADD_FILTER_VIDEO( string )`. -/
def ADD_FILTER_VIDEO (tr : String → String) (x : Extensions) (string : String) : String :=
  let string := string ++ tr "Video Files"
  let string := string ++ " ( "
  let string := string ++ x.EXTENSIONS_VIDEO
  let string := string ++ ");;"
  string

/-- Source lines 52-56, `ADD_FILTER_AUDIO( string )`. -/
def ADD_FILTER_AUDIO (tr : String → String) (x : Extensions) (string : String) : String :=
  let string := string ++ tr "Audio Files"
  let string := string ++ " ( "
  let string := string ++ x.EXTENSIONS_AUDIO
  let string := string ++ ");;"
  string

/-- Source lines 57-61, `ADD_FILTER_PLAYLIST( string )`. -/
def ADD_FILTER_PLAYLIST (tr : String → String) (x : Extensions) (string : String) : String :=
  let string := string ++ tr "Playlist Files"
  let string := string ++ " ( "
  let string := string ++ x.EXTENSIONS_PLAYLIST
  let string := string ++ ");;"
  string

/-- Source lines 62-66, `ADD_FILTER_SUBTITLE( string )`. -/
def ADD_FILTER_SUBTITLE (tr : String → String) (x : Extensions) (string : String) : String :=
  let string := string ++ tr "Subtitles Files"
  let string := string ++ " ( "
  let string := string ++ x.EXTENSIONS_SUBTITLE
  let string := string ++ ");;"
  string

/-- Source lines 67-69, `ADD_FILTER_ALL( string )`. -/
def ADD_FILTER_ALL (tr : String → String) (string : String) : String :=
  let string := string ++ tr "All Files"
  let string := string ++ " (*.*)"
  string

/-- The macro belonging to a category. -/
def ADD_FILTER (tr : String → String) (x : Extensions) : Category → String → String
  | Category.Media => ADD_FILTER_MEDIA tr x
  | Category.Video => ADD_FILTER_VIDEO tr x
  | Category.Audio => ADD_FILTER_AUDIO tr x
  | Category.Playlist => ADD_FILTER_PLAYLIST tr x
  | Category.Subtitle => ADD_FILTER_SUBTITLE tr x

/-- One filter entry: label, extension list in parentheses, separator. -/
def entry (tr : String → String) (x : Extensions) (c : Category) : String :=
  tr c.label ++ " ( " ++ x.of c ++ ")" ++ ";;"

/-- Modelled from the spec: the body that assembles the filter string of a file dialog is
not part of the header (only the macros and the declaration of `showSimpleOpen` are).
Following section 4.2, starting from the empty string the macro of each requested category
is applied as one guarded block, in the order Media, Video, Audio, Playlist, Subtitle, and
`ADD_FILTER_ALL` is applied last. -/
def buildFilter (tr : String → String) (x : Extensions) (filters : Int) : String :=
  let fileTypes := ""
  let fileTypes :=
    if Int.land filters EXT_FILTER_MEDIA ≠ 0 then ADD_FILTER_MEDIA tr x fileTypes else fileTypes
  let fileTypes :=
    if Int.land filters EXT_FILTER_VIDEO ≠ 0 then ADD_FILTER_VIDEO tr x fileTypes else fileTypes
  let fileTypes :=
    if Int.land filters EXT_FILTER_AUDIO ≠ 0 then ADD_FILTER_AUDIO tr x fileTypes else fileTypes
  let fileTypes :=
    if Int.land filters EXT_FILTER_PLAYLIST ≠ 0 then ADD_FILTER_PLAYLIST tr x fileTypes
    else fileTypes
  let fileTypes :=
    if Int.land filters EXT_FILTER_SUBTITLE ≠ 0 then ADD_FILTER_SUBTITLE tr x fileTypes
    else fileTypes
  ADD_FILTER_ALL tr fileTypes

/-- Source lines 99-103: the default value of the parameter `filters` of `showSimpleOpen`,
`EXT_FILTER_MEDIA | EXT_FILTER_VIDEO | EXT_FILTER_AUDIO | EXT_FILTER_PLAYLIST`
(`|` associates to the left). -/
def showSimpleOpen_default_filters : Int :=
  Int.lor (Int.lor (Int.lor EXT_FILTER_MEDIA EXT_FILTER_VIDEO) EXT_FILTER_AUDIO)
    EXT_FILTER_PLAYLIST

/-- Number of positions of the character list `t` at which `p` occurs as a contiguous block. -/
def countOcc (p : List Char) : List Char → Nat
  | [] => if p.isPrefixOf [] then 1 else 0
  | c :: t => (if p.isPrefixOf (c :: t) then 1 else 0) + countOcc p t

/-- Number of occurrences of the string `pat` inside the string `s`. -/
def occurrences (pat s : String) : Nat :=
  countOcc pat.data s.data

/-- The characters of the entries of a list of categories followed by the catch-all entry,
with the identity as translation lookup. -/
def body (x : Extensions) : List Category → List Char
  | [] => "All Files (*.*)".data
  | c :: cs => (entry id x c).data ++ body x cs

/-- The characters of the entries of a list of categories, without the catch-all entry. -/
def entriesData (x : Extensions) : List Category → List Char
  | [] => []
  | c :: cs => (entry id x c).data ++ entriesData x cs

/-- The characters in front of an entry: nothing for the first one, the separator of the
previous entry otherwise. -/
def sepBefore (first : Bool) : List Char :=
  if first then [] else [';', ';']

/-- Extension lists as they look in practice, used for concrete evaluations. -/
def sampleExtensions : Extensions :=
  { EXTENSIONS_MEDIA := "*.avi;*.mp3;*.m3u"
    EXTENSIONS_VIDEO := "*.avi;*.mkv"
    EXTENSIONS_AUDIO := "*.mp3;*.ogg"
    EXTENSIONS_PLAYLIST := "*.m3u;*.xspf"
    EXTENSIONS_SUBTITLE := "*.srt;*.sub" }

/-! ## Singleton accessors -/

/-- The null pointer. -/
def NULL : Nat := 0

/-- An object of class `DialogsProvider`. `serial` is the identity of the object (the
number of objects allocated before it), `p_intf` the private member
`intf_thread_t *p_intf`, an address with `NULL` for the null pointer. -/
structure DialogsProvider where
  serial : Nat
  p_intf : Nat
deriving DecidableEq, Repr

/-- The part of the process state the accessors touch. `instance_` is the static member
`DialogsProvider *instance` (`none` is the null pointer, `some d` points to the object
`d`); `constructed` logs every object `new` has produced, `destroyed` every object
`delete` has been applied to, newest first. -/
structure Process where
  instance_ : Option DialogsProvider
  constructed : List DialogsProvider
  destroyed : List DialogsProvider
deriving DecidableEq, Repr

/-- The state at program start: the static pointer is null, nothing was allocated. -/
def Process.initial : Process :=
  { instance_ := none, constructed := [], destroyed := [] }

/-- The objects constructed and not yet destroyed. -/
def Process.live (s : Process) : List DialogsProvider :=
  s.constructed.filter (fun d => d ∉ s.destroyed)

/-- The invariant kept by the accessors: serial numbers of constructed objects are below
the number of constructions, no object is logged as constructed or as destroyed twice,
only constructed objects are destroyed, and the live objects are exactly the one the
static pointer points to (none when it is null). -/
structure Process.WellFormed (s : Process) : Prop where
  serial_lt : ∀ d ∈ s.constructed, d.serial < s.constructed.length
  constructed_nodup : s.constructed.Nodup
  destroyed_nodup : s.destroyed.Nodup
  destroyed_sub : ∀ d ∈ s.destroyed, d ∈ s.constructed
  live_eq : s.live = s.instance_.toList

/-- Result of a call that may stop the program in `assert`. -/
inductive Outcome (α : Type) where
  | returned (a : α)
  | assertionFailed
deriving DecidableEq, Repr

/-- Modelled from the spec: the body of the private constructor
`DialogsProvider( intf_thread_t * )` is not in the header, which only declares it together
with the member `p_intf`. Following section 4.1 ("construct one bound to context") the new
object stores the pointer it is given; `serial` is its allocation number. -/
def DialogsProvider.construct (serial : Nat) (p_intf : Nat) : DialogsProvider :=
  { serial := serial, p_intf := p_intf }

/-- Source lines 80-84, `static DialogsProvider *getInstance()`, with `assert` enabled:
`assert( instance ); return instance;`. The result is the returned pointer and the state. -/
def getInstance (s : Process) : Outcome (Option DialogsProvider × Process) :=
  if s.instance_.isSome then
    Outcome.returned (s.instance_, s)
  else
    Outcome.assertionFailed

/-- Source lines 85-90, `static DialogsProvider *getInstance( intf_thread_t *p_intf )`:
`if( !instance ) instance = new DialogsProvider( p_intf ); return instance;`. -/
def getInstanceIntf (p_intf : Nat) (s : Process) : Option DialogsProvider × Process :=
  let s :=
    if s.instance_.isNone then
      let d := DialogsProvider.construct s.constructed.length p_intf
      { s with instance_ := some d, constructed := d :: s.constructed }
    else s
  (s.instance_, s)

/-- Source lines 91-95, `static void killInstance()`:
`if( instance ) delete instance; instance=NULL;`. -/
def killInstance (s : Process) : Process :=
  let s :=
    match s.instance_ with
    | some d => { s with destroyed := d :: s.destroyed }
    | none => s
  { s with instance_ := none }

/-- A call to one of the three static accessors. -/
inductive Call where
  | getInstanceIntf (p_intf : Nat)
  | getInstance
  | killInstance
deriving DecidableEq, Repr

/-- One call; `none` when the program stops in the assertion of `getInstance()`. -/
def step (s : Process) : Call → Option Process
  | Call.getInstanceIntf p => some (getInstanceIntf p s).2
  | Call.getInstance =>
    match getInstance s with
    | Outcome.returned r => some r.2
    | Outcome.assertionFailed => none
  | Call.killInstance => some (killInstance s)

/-- The states reached after each call of a sequence, in order; the sequence is cut where
the assertion of `getInstance()` fails. -/
def trace (s : Process) : List Call → List Process
  | [] => []
  | c :: cs =>
    match step s c with
    | some s1 => s1 :: trace s1 cs
    | none => []

/-! ## Flags and the default mask -/

/-- Claim C7: the default `filters` argument of `showSimpleOpen` is the value `0x0F`; the
Media, Video, Audio and Playlist bits are set in it and the Subtitle bit `0x10` is clear. -/
theorem showSimpleOpen_default_filters_value :
    showSimpleOpen_default_filters = 0x0F ∧
    Int.land showSimpleOpen_default_filters EXT_FILTER_MEDIA = EXT_FILTER_MEDIA ∧
    Int.land showSimpleOpen_default_filters EXT_FILTER_VIDEO = EXT_FILTER_VIDEO ∧
    Int.land showSimpleOpen_default_filters EXT_FILTER_AUDIO = EXT_FILTER_AUDIO ∧
    Int.land showSimpleOpen_default_filters EXT_FILTER_PLAYLIST = EXT_FILTER_PLAYLIST ∧
    Int.land showSimpleOpen_default_filters EXT_FILTER_SUBTITLE = 0 ∧
    EXT_FILTER_SUBTITLE = 0x10 ∧
    showSimpleOpen_default_filters =
      maskOf {Category.Media, Category.Video, Category.Audio, Category.Playlist} := by
  decide

/-! ## The macros -/

/-- Appending keeps the left operand as a prefix of the character data. -/
theorem data_prefix_append (s t : String) : s.data <+: (s ++ t).data := by
  rw [String.data_append]
  exact List.prefix_append _ _

/-- What `ADD_FILTER_ALL` appends. -/
theorem ADD_FILTER_ALL_eq (tr : String → String) (s : String) :
    ADD_FILTER_ALL tr s = s ++ (tr "All Files" ++ " (*.*)") := by
  simp [ADD_FILTER_ALL, String.append_assoc]

/-- What the macro of a category appends. -/
theorem ADD_FILTER_eq (tr : String → String) (x : Extensions) (c : Category) (s : String) :
    ADD_FILTER tr x c s = s ++ entry tr x c := by
  cases c <;>
    simp [ADD_FILTER, ADD_FILTER_MEDIA, ADD_FILTER_VIDEO, ADD_FILTER_AUDIO, ADD_FILTER_PLAYLIST,
      ADD_FILTER_SUBTITLE, entry, Category.label, Extensions.of, String.append_assoc]

/-- Claim C9: each of the five `ADD_FILTER_*` macros turns `s` into `s` followed by one
entry made of the (translated) label of its category, the extension list of the category
between an opening and a closing parenthesis (written `" ( "` and `")"`), and the
separator `";;"`; `s` itself is kept as a prefix. -/
theorem ADD_FILTER_appends_one_entry (tr : String → String) (x : Extensions) (s : String) :
    ADD_FILTER_MEDIA tr x s
      = s ++ (tr "Media Files" ++ " ( " ++ x.EXTENSIONS_MEDIA ++ ")" ++ ";;") ∧
    ADD_FILTER_VIDEO tr x s
      = s ++ (tr "Video Files" ++ " ( " ++ x.EXTENSIONS_VIDEO ++ ")" ++ ";;") ∧
    ADD_FILTER_AUDIO tr x s
      = s ++ (tr "Audio Files" ++ " ( " ++ x.EXTENSIONS_AUDIO ++ ")" ++ ";;") ∧
    ADD_FILTER_PLAYLIST tr x s
      = s ++ (tr "Playlist Files" ++ " ( " ++ x.EXTENSIONS_PLAYLIST ++ ")" ++ ";;") ∧
    ADD_FILTER_SUBTITLE tr x s
      = s ++ (tr "Subtitles Files" ++ " ( " ++ x.EXTENSIONS_SUBTITLE ++ ")" ++ ";;") ∧
    (∀ c : Category,
      ADD_FILTER tr x c s = s ++ (tr c.label ++ " ( " ++ x.of c ++ ")" ++ ";;") ∧
      s.data <+: (ADD_FILTER tr x c s).data ∧
      (ADD_FILTER tr x c s).length
        = s.length + ((tr c.label).length + 3 + (x.of c).length + 1 + 2)) := by
  refine ⟨?_, ?_, ?_, ?_, ?_, ?_⟩
  · exact ADD_FILTER_eq tr x Category.Media s
  · exact ADD_FILTER_eq tr x Category.Video s
  · exact ADD_FILTER_eq tr x Category.Audio s
  · exact ADD_FILTER_eq tr x Category.Playlist s
  · exact ADD_FILTER_eq tr x Category.Subtitle s
  · intro c
    have h := ADD_FILTER_eq tr x c s
    refine ⟨h, ?_, ?_⟩
    · rw [h]
      exact data_prefix_append _ _
    · rw [h]
      simp [entry, String.length_append]
      rfl

/-- The guarded blocks of `buildFilter` written as one left fold over the categories. -/
theorem buildFilter_fold (tr : String → String) (x : Extensions) (filters : Int) :
    buildFilter tr x filters =
      ADD_FILTER_ALL tr
        (Category.ordered.foldl
          (fun acc c => if Int.land filters c.flag ≠ 0 then ADD_FILTER tr x c acc else acc) "") :=
  rfl

/-- Claim C6: with no category requested (mask 0) only `ADD_FILTER_ALL` is applied, to the
empty string, and with the identity as translation lookup the result is exactly
`"All Files (*.*)"`: no test `0 & FLAG` succeeds, and the string holds neither a separator
`";;"` nor a category label. -/
theorem buildFilter_no_category (x : Extensions) :
    ADD_FILTER_ALL id "" = "All Files (*.*)" ∧
    (∀ c : Category, Int.land 0 c.flag = 0) ∧
    maskOf ∅ = 0 ∧
    buildFilter id x 0 = "All Files (*.*)" ∧
    occurrences ";;" (buildFilter id x 0) = 0 ∧
    (∀ c : Category, occurrences c.label (buildFilter id x 0) = 0) := by
  have h0 : ∀ c : Category, Int.land 0 c.flag = 0 := by decide
  have h : buildFilter id x 0 = "All Files (*.*)" := by
    rw [buildFilter_fold]
    simp only [Category.ordered, List.foldl, h0, ne_eq, not_true_eq_false, if_false]
    decide
  refine ⟨by decide, by decide, by decide, h, ?_, ?_⟩
  · rw [h]
    decide
  · rw [h]
    decide

/-! ## The singleton accessors -/

/-- Claim C2: `getInstance()` stops in its assertion exactly when the static pointer is null,
which is the case at program start and after every `killInstance`; when it points to an
object the call returns that object and the state is the one it was called in, so nothing
is constructed or destroyed. -/
theorem getInstance_asserts_iff_no_instance (s : Process) :
    (getInstance s = Outcome.assertionFailed ↔ s.instance_ = none) ∧
    (∀ d : DialogsProvider, s.instance_ = some d →
      getInstance s = Outcome.returned (some d, s)) ∧
    getInstance Process.initial = Outcome.assertionFailed ∧
    getInstance (killInstance s) = Outcome.assertionFailed := by
  refine ⟨?_, ?_, rfl, rfl⟩
  · cases h : s.instance_ <;> simp [getInstance, h]
  · intro d h
    simp [getInstance, h]

/-- Instance of claim C2 on the state reached by `getInstance( 7 )` from program start. -/
theorem getInstance_asserts_iff_no_instance_witness :
    (getInstanceIntf 7 Process.initial).2.instance_ = some ⟨0, 7⟩ ∧
    getInstance (getInstanceIntf 7 Process.initial).2
      = Outcome.returned (some ⟨0, 7⟩, (getInstanceIntf 7 Process.initial).2) :=
  ⟨by decide,
   (getInstance_asserts_iff_no_instance (getInstanceIntf 7 Process.initial).2).2.1 ⟨0, 7⟩
     (by decide)⟩

/-- Claim C3: `killInstance` is total and always leaves the static pointer null; it destroys
the instance when there is one and changes nothing when there is none; a second call in
succession gives the same state as the first and adds nothing to the destroyed objects. -/
theorem killInstance_idempotent (s : Process) :
    (killInstance s).instance_ = none ∧
    (∀ d : DialogsProvider, s.instance_ = some d →
      (killInstance s).destroyed = d :: s.destroyed) ∧
    (s.instance_ = none → killInstance s = s) ∧
    (killInstance s).constructed = s.constructed ∧
    killInstance (killInstance s) = killInstance s ∧
    (killInstance (killInstance s)).destroyed = (killInstance s).destroyed := by
  refine ⟨rfl, ?_, ?_, ?_, rfl, rfl⟩
  · intro d h
    simp [killInstance, h]
  · intro h
    cases s
    simp_all [killInstance]
  · cases h : s.instance_ <;> simp [killInstance, h]

/-- Instance of claim C3 on the state reached by `getInstance( 7 )` from program start and
on the state at program start. -/
theorem killInstance_idempotent_witness :
    ((getInstanceIntf 7 Process.initial).2.instance_ = some ⟨0, 7⟩ ∧
      (killInstance (getInstanceIntf 7 Process.initial).2).destroyed = [⟨0, 7⟩]) ∧
    (Process.initial.instance_ = none ∧ killInstance Process.initial = Process.initial) :=
  ⟨⟨by decide,
    (killInstance_idempotent (getInstanceIntf 7 Process.initial).2).2.1 ⟨0, 7⟩ (by decide)⟩,
   ⟨by decide, (killInstance_idempotent Process.initial).2.2.1 (by decide)⟩⟩

/-- Claim C1: in a state without instance `getInstance( ctx1 )` constructs one object bound
to `ctx1`, stores it in the static pointer and returns it; a following `getInstance( ctx2 )`
returns the same object and leaves the state as it is (nothing is constructed, the object is
still bound to `ctx1`); `getInstance()` afterwards returns the same object. -/
theorem getInstance_first_writer_wins (ctx1 ctx2 : Nat) (s : Process)
    (h : s.instance_ = none) :
    ∃ d : DialogsProvider,
      d.p_intf = ctx1 ∧
      (getInstanceIntf ctx1 s).1 = some d ∧
      (getInstanceIntf ctx1 s).2.instance_ = some d ∧
      (getInstanceIntf ctx1 s).2.constructed = d :: s.constructed ∧
      (getInstanceIntf ctx1 s).2.destroyed = s.destroyed ∧
      (getInstanceIntf ctx2 (getInstanceIntf ctx1 s).2).1 = some d ∧
      (getInstanceIntf ctx2 (getInstanceIntf ctx1 s).2).2 = (getInstanceIntf ctx1 s).2 ∧
      getInstance (getInstanceIntf ctx2 (getInstanceIntf ctx1 s).2).2
        = Outcome.returned (some d, (getInstanceIntf ctx1 s).2) := by
  refine ⟨DialogsProvider.construct s.constructed.length ctx1, rfl, ?_⟩
  simp [getInstanceIntf, getInstance, h]

/-- Instance of claim C1 at program start with the contexts 7 and 9: the object returned by
all three calls is the first one, bound to 7. -/
theorem getInstance_first_writer_wins_witness :
    Process.initial.instance_ = none ∧
    ∃ d : DialogsProvider,
      d.p_intf = 7 ∧
      (getInstanceIntf 7 Process.initial).1 = some d ∧
      (getInstanceIntf 7 Process.initial).2.instance_ = some d ∧
      (getInstanceIntf 7 Process.initial).2.constructed = d :: Process.initial.constructed ∧
      (getInstanceIntf 7 Process.initial).2.destroyed = Process.initial.destroyed ∧
      (getInstanceIntf 9 (getInstanceIntf 7 Process.initial).2).1 = some d ∧
      (getInstanceIntf 9 (getInstanceIntf 7 Process.initial).2).2
        = (getInstanceIntf 7 Process.initial).2 ∧
      getInstance (getInstanceIntf 9 (getInstanceIntf 7 Process.initial).2).2
        = Outcome.returned (some d, (getInstanceIntf 7 Process.initial).2) :=
  ⟨rfl, getInstance_first_writer_wins 7 9 Process.initial rfl⟩

/-- Claim C4, as stated, fails: in the state reached by `getInstance( 7 )` from program
start, `getInstance( NULL )` returns normally, with the existing instance. -/
theorem getInstance_null_returns_instance :
    (getInstanceIntf 7 Process.initial).2.instance_ = some ⟨0, 7⟩ ∧
    getInstanceIntf NULL (getInstanceIntf 7 Process.initial).2
      = (some ⟨0, 7⟩, (getInstanceIntf 7 Process.initial).2) := by
  decide

/-- Claim C4, amended: `getInstance( p_intf )` carries no assertion on `p_intf`. In every
state in which an instance exists, the call with a null `p_intf` returns normally with
that existing instance and leaves the state unchanged: nothing is constructed, nothing is
destroyed, and the instance keeps the context it was built with. -/
theorem getInstance_null_with_instance (s : Process) (d : DialogsProvider)
    (h : s.instance_ = some d) :
    getInstanceIntf NULL s = (some d, s) ∧
    (getInstanceIntf NULL s).2.instance_ = some d ∧
    (getInstanceIntf NULL s).2.constructed = s.constructed ∧
    (getInstanceIntf NULL s).2.destroyed = s.destroyed := by
  have e : getInstanceIntf NULL s = (some d, s) := by
    simp [getInstanceIntf, h]
  refine ⟨e, ?_, ?_, ?_⟩
  · rw [e]
    exact h
  · rw [e]
  · rw [e]

/-- Instance of the amended claim C4 on the state reached by `getInstance( 7 )` from program
start: the pointer still holds the object bound to 7 and one object has been constructed. -/
theorem getInstance_null_with_instance_witness :
    (getInstanceIntf 7 Process.initial).2.instance_ = some ⟨0, 7⟩ ∧
    (getInstanceIntf NULL (getInstanceIntf 7 Process.initial).2).2.instance_ = some ⟨0, 7⟩ ∧
    (getInstanceIntf NULL (getInstanceIntf 7 Process.initial).2).2.constructed = [⟨0, 7⟩] :=
  ⟨by decide,
   (getInstance_null_with_instance (getInstanceIntf 7 Process.initial).2 ⟨0, 7⟩
     (by decide)).2.1,
   (getInstance_null_with_instance (getInstanceIntf 7 Process.initial).2 ⟨0, 7⟩
     (by decide)).2.2.1.trans (by decide)⟩

/-! ## The flags as a set encoding -/

/-- Two integers with the same bits are equal. -/
theorem int_eq_of_testBit_eq (m n : Int) (h : ∀ k, Int.testBit m k = Int.testBit n k) :
    m = n := by
  cases m with
  | ofNat a =>
    cases n with
    | ofNat b =>
      have : a = b := Nat.eq_of_testBit_eq (fun k => by simpa [Int.testBit] using h k)
      rw [this]
    | negSucc b =>
      exfalso
      have hk := h (a + b)
      have ha : Nat.testBit a (a + b) = false :=
        Nat.testBit_eq_false_of_lt (lt_of_le_of_lt (Nat.le_add_right a b) (Nat.lt_two_pow _))
      have hb : Nat.testBit b (a + b) = false :=
        Nat.testBit_eq_false_of_lt (lt_of_le_of_lt (Nat.le_add_left b a) (Nat.lt_two_pow _))
      simp [Int.testBit, ha, hb] at hk
  | negSucc a =>
    cases n with
    | ofNat b =>
      exfalso
      have hk := h (a + b)
      have ha : Nat.testBit a (a + b) = false :=
        Nat.testBit_eq_false_of_lt (lt_of_le_of_lt (Nat.le_add_right a b) (Nat.lt_two_pow _))
      have hb : Nat.testBit b (a + b) = false :=
        Nat.testBit_eq_false_of_lt (lt_of_le_of_lt (Nat.le_add_left b a) (Nat.lt_two_pow _))
      simp [Int.testBit, ha, hb] at hk
    | negSucc b =>
      have : a = b := Nat.eq_of_testBit_eq (fun k => by simpa [Int.testBit] using h k)
      rw [this]

/-- Zero has no bit set. -/
theorem int_testBit_zero (k : Nat) : Int.testBit 0 k = false := by
  show Nat.testBit 0 k = false
  simp

/-- The flag of a category has exactly the bit of the category set. -/
theorem testBit_flag (c : Category) (k : Nat) : Int.testBit c.flag k = decide (c.bit = k) := by
  have h : c.flag = ((2 ^ c.bit : Nat) : Int) := by cases c <;> rfl
  rw [h]
  show Nat.testBit (2 ^ c.bit) k = decide (c.bit = k)
  exact Nat.testBit_two_pow

/-- Distinct categories have distinct bits. -/
theorem bit_injective (a c : Category) (h : a.bit = c.bit) : a = c := by
  cases a <;> cases c <;> first | rfl | (exact absurd h (by decide))

/-- The C test `m & FLAG` is non-zero exactly when the bit of the category is set in `m`. -/
theorem land_flag_ne_zero_iff (m : Int) (c : Category) :
    Int.land m c.flag ≠ 0 ↔ Int.testBit m c.bit = true := by
  constructor
  · intro h
    by_contra hb
    apply h
    apply int_eq_of_testBit_eq
    intro k
    rw [Int.testBit_land, testBit_flag]
    rw [int_testBit_zero]
    by_cases hk : c.bit = k
    · subst hk
      simp [hb]
    · simp [hk]
  · intro hb h0
    have h := Int.testBit_land m c.flag c.bit
    rw [h0, testBit_flag, hb, int_testBit_zero] at h
    simp at h

/-- Bits of the OR of the flags of a list of categories. -/
theorem testBit_orFlags (l : List Category) (k : Nat) :
    Int.testBit (orFlags l) k = true ↔ ∃ a ∈ l, a.bit = k := by
  induction l with
  | nil => simp [orFlags, int_testBit_zero]
  | cons a l ih =>
    simp only [orFlags]
    rw [Int.testBit_lor, Bool.or_eq_true, ih, testBit_flag]
    simp

/-- The flag of `c` is set in the OR of the flags of a list exactly when `c` is in the list. -/
theorem land_orFlags_ne_zero_iff (l : List Category) (c : Category) :
    Int.land (orFlags l) c.flag ≠ 0 ↔ c ∈ l := by
  rw [land_flag_ne_zero_iff, testBit_orFlags]
  constructor
  · rintro ⟨a, ha, hb⟩
    rw [← bit_injective a c hb]
    exact ha
  · intro h
    exact ⟨c, h, rfl⟩

/-- The flag of `c` is set in the mask of `S` exactly when `c` belongs to `S`. -/
theorem land_maskOf_ne_zero_iff (S : Finset Category) (c : Category) :
    Int.land (maskOf S) c.flag ≠ 0 ↔ c ∈ S := by
  unfold maskOf
  rw [land_orFlags_ne_zero_iff, List.mem_filter]
  have : c ∈ Category.ordered := by cases c <;> decide
  simp [this]

/-- OR-ing a flag into a mask in which it is already set changes nothing. -/
theorem lor_flag_of_set (m : Int) (c : Category) (h : Int.land m c.flag ≠ 0) :
    Int.lor m c.flag = m := by
  rw [land_flag_ne_zero_iff] at h
  apply int_eq_of_testBit_eq
  intro k
  rw [Int.testBit_lor, testBit_flag]
  by_cases hk : c.bit = k
  · subst hk
    simp [h]
  · simp [hk]

/-- Claim C10: the flags encode sets faithfully. For every subset `S` and category `c`,
`maskOf S & flag c` is non-zero exactly when `c` is in `S`; subsets with equal masks are
equal; the same membership test holds for the OR of any list of flags, repetitions
included; and for every mask, OR-ing a flag that is already set leaves the mask unchanged,
so that listing a category twice gives the mask of listing it once. -/
theorem EXT_FILTER_faithful_encoding :
    (∀ (S : Finset Category) (c : Category), Int.land (maskOf S) c.flag ≠ 0 ↔ c ∈ S) ∧
    (∀ S T : Finset Category, maskOf S = maskOf T → S = T) ∧
    (∀ (l : List Category) (c : Category), Int.land (orFlags l) c.flag ≠ 0 ↔ c ∈ l) ∧
    (∀ (m : Int) (c : Category), Int.land m c.flag ≠ 0 → Int.lor m c.flag = m) ∧
    (∀ (l : List Category) (c : Category), c ∈ l → orFlags (c :: l) = orFlags l) := by
  refine ⟨land_maskOf_ne_zero_iff, ?_, land_orFlags_ne_zero_iff, lor_flag_of_set, ?_⟩
  · intro S T h
    ext c
    rw [← land_maskOf_ne_zero_iff S c, ← land_maskOf_ne_zero_iff T c, h]
  · intro l c hc
    have h1 : Int.land (orFlags l) c.flag ≠ 0 := (land_orFlags_ne_zero_iff l c).2 hc
    have h2 := lor_flag_of_set (orFlags l) c h1
    apply int_eq_of_testBit_eq
    intro k
    have h3 := congrArg (fun z => Int.testBit z k) h2
    simp only [Int.testBit_lor] at h3
    simp only [orFlags, Int.testBit_lor]
    rw [Bool.or_comm]
    exact h3

/-- Instance of claim C10: in the mask `0x06` of the subset Video, Audio the Audio flag is
set, OR-ing it again gives `0x06`; the subsets Video, Audio and Video, Subtitle have
different masks. -/
theorem EXT_FILTER_faithful_encoding_witness :
    Int.land 0x06 Category.Audio.flag ≠ 0 ∧
    Int.lor 0x06 Category.Audio.flag = 0x06 ∧
    Category.Audio ∈ [Category.Video, Category.Audio] ∧
    orFlags (Category.Audio :: [Category.Video, Category.Audio])
      = orFlags [Category.Video, Category.Audio] :=
  ⟨by decide,
   EXT_FILTER_faithful_encoding.2.2.2.1 0x06 Category.Audio (by decide),
   by decide,
   EXT_FILTER_faithful_encoding.2.2.2.2 [Category.Video, Category.Audio] Category.Audio
     (by decide)⟩

/-! ## The single-instance invariant -/

/-- The state at program start is well formed. -/
theorem wellFormed_initial : Process.initial.WellFormed :=
  { serial_lt := by simp [Process.initial]
    constructed_nodup := by simp [Process.initial]
    destroyed_nodup := by simp [Process.initial]
    destroyed_sub := by simp [Process.initial]
    live_eq := by simp [Process.initial, Process.live] }

/-- The accessor `getInstance( p_intf )` keeps the invariant. -/
theorem wellFormed_getInstanceIntf (p : Nat) (s : Process) (h : s.WellFormed) :
    (getInstanceIntf p s).2.WellFormed := by
  cases hi : s.instance_ with
  | some d =>
    have e : (getInstanceIntf p s).2 = s := by simp [getInstanceIntf, hi]
    rw [e]
    exact h
  | none =>
    have hfresh : DialogsProvider.construct s.constructed.length p ∉ s.destroyed := by
      intro hmem
      have := h.serial_lt _ (h.destroyed_sub _ hmem)
      simp [DialogsProvider.construct] at this
    have hlive := h.live_eq
    rw [hi] at hlive
    have hnew : DialogsProvider.construct s.constructed.length p ∉ s.constructed := by
      intro hmem
      have := h.serial_lt _ hmem
      simp [DialogsProvider.construct] at this
    refine
      { serial_lt := ?_
        constructed_nodup := ?_
        destroyed_nodup := ?_
        destroyed_sub := ?_
        live_eq := ?_ }
    · intro d hd
      simp only [getInstanceIntf, hi, Option.isNone_none, if_true, List.mem_cons,
        List.length_cons] at hd ⊢
      rcases hd with hd | hd
      · rw [hd]
        simp [DialogsProvider.construct]
      · exact Nat.lt_succ_of_lt (h.serial_lt d hd)
    · simp only [getInstanceIntf, hi, Option.isNone_none, if_true]
      exact List.nodup_cons.2 ⟨hnew, h.constructed_nodup⟩
    · simpa [getInstanceIntf, hi] using h.destroyed_nodup
    · intro d hd
      simp only [getInstanceIntf, hi, Option.isNone_none, if_true, List.mem_cons] at hd ⊢
      exact Or.inr (h.destroyed_sub d hd)
    · simp only [Process.live] at hlive
      simp only [getInstanceIntf, hi, Option.isNone_none, if_true, Process.live]
      rw [List.filter_cons_of_pos (by simpa using hfresh), hlive]
      rfl

/-- The accessor `killInstance` keeps the invariant. -/
theorem wellFormed_killInstance (s : Process) (h : s.WellFormed) :
    (killInstance s).WellFormed := by
  cases hi : s.instance_ with
  | none =>
    have e : killInstance s = s := by
      cases s
      simp_all [killInstance]
    rw [e]
    exact h
  | some d =>
    have hlive := h.live_eq
    rw [hi] at hlive
    simp only [Process.live, Option.toList] at hlive
    have hmem : d ∈ s.constructed.filter (fun e => e ∉ s.destroyed) := by
      rw [hlive]
      exact List.mem_singleton_self d
    rw [List.mem_filter] at hmem
    have hnot : d ∉ s.destroyed := by simpa using hmem.2
    refine
      { serial_lt := ?_
        constructed_nodup := ?_
        destroyed_nodup := ?_
        destroyed_sub := ?_
        live_eq := ?_ }
    · simpa [killInstance, hi] using h.serial_lt
    · simpa [killInstance, hi] using h.constructed_nodup
    · simp only [killInstance, hi]
      exact List.nodup_cons.2 ⟨hnot, h.destroyed_nodup⟩
    · intro e he
      simp only [killInstance, hi, List.mem_cons] at he ⊢
      rcases he with he | he
      · rw [he]
        exact hmem.1
      · exact h.destroyed_sub e he
    · simp only [killInstance, hi, Process.live, Option.toList]
      have hsplit : s.constructed.filter (fun e => decide (e ∉ d :: s.destroyed))
          = (s.constructed.filter (fun e => decide (e ∉ s.destroyed))).filter
              (fun e => decide (e ≠ d)) := by
        rw [List.filter_filter]
        congr 1
        funext e
        simp [List.mem_cons, not_or]
      rw [hsplit, hlive]
      simp

/-- Every executed call keeps the invariant. -/
theorem wellFormed_step (s s1 : Process) (c : Call) (h : s.WellFormed)
    (hs : step s c = some s1) : s1.WellFormed := by
  cases c with
  | getInstanceIntf p =>
    simp only [step, Option.some.injEq] at hs
    rw [← hs]
    exact wellFormed_getInstanceIntf p s h
  | getInstance =>
    cases hi : s.instance_ with
    | none => simp [step, getInstance, hi] at hs
    | some d =>
      simp [step, getInstance, hi] at hs
      rw [← hs]
      exact h
  | killInstance =>
    simp only [step, Option.some.injEq] at hs
    rw [← hs]
    exact wellFormed_killInstance s h

/-- Every state of a trace that starts in a well-formed state is well formed. -/
theorem wellFormed_trace (calls : List Call) :
    ∀ (s0 s : Process), s0.WellFormed → s ∈ trace s0 calls → s.WellFormed := by
  induction calls with
  | nil =>
    intro s0 s _ hs
    simp [trace] at hs
  | cons c cs ih =>
    intro s0 s h0 hs
    cases hstep : step s0 c with
    | none => simp [trace, hstep] at hs
    | some s1 =>
      have h1 := wellFormed_step s0 s1 c h0 hstep
      simp only [trace, hstep, List.mem_cons] at hs
      rcases hs with hs | hs
      · rw [hs]
        exact h1
      · exact ih s1 s h1 hs

/-- Claim C8: along every sequence of calls to `getInstance( ctx )`, `getInstance()` and
`killInstance` from program start (cut where the assertion of `getInstance()` fails), after
every step the number of live objects is 0 or 1, it is 1 exactly when the static pointer
is non-null, the live object is the one the pointer points to, every constructed object
is a distinct one, and no object has been destroyed twice. -/
theorem single_instance_invariant (calls : List Call) (s : Process)
    (h : s ∈ trace Process.initial calls) :
    (s.live.length = 0 ∨ s.live.length = 1) ∧
    (s.live.length = 1 ↔ s.instance_ ≠ none) ∧
    s.live = s.instance_.toList ∧
    s.constructed.Nodup ∧
    s.destroyed.Nodup := by
  have hw := wellFormed_trace calls Process.initial s wellFormed_initial h
  have hl := hw.live_eq
  refine ⟨?_, ?_, hl, hw.constructed_nodup, hw.destroyed_nodup⟩
  · rw [hl]
    cases s.instance_ <;> simp
  · rw [hl]
    cases s.instance_ <;> simp

/-- Instance of claim C8: the state after construct, kill, kill, construct. -/
theorem single_instance_invariant_witness :
    (getInstanceIntf 8 (killInstance (killInstance (getInstanceIntf 7 Process.initial).2))).2
      ∈ trace Process.initial
        [Call.getInstanceIntf 7, Call.killInstance, Call.killInstance, Call.getInstanceIntf 8] ∧
    (getInstanceIntf 8
      (killInstance (killInstance (getInstanceIntf 7 Process.initial).2))).2.live.length = 1 :=
  ⟨by decide,
   ((single_instance_invariant
      [Call.getInstanceIntf 7, Call.killInstance, Call.killInstance, Call.getInstanceIntf 8]
      (getInstanceIntf 8 (killInstance (killInstance (getInstanceIntf 7 Process.initial).2))).2
      (by decide)).2.1).2 (by decide)⟩

/-! ## The assembled filter string -/

/-- A guarded left fold is the left fold over the elements passing the guard. -/
theorem foldl_guard {α β : Type} (P : α → Prop) [DecidablePred P] (f : α → β → β)
    (l : List α) : ∀ acc : β,
    l.foldl (fun acc c => if P c then f c acc else acc) acc
      = (l.filter (fun c => decide (P c))).foldl (fun acc c => f c acc) acc := by
  induction l with
  | nil => intro acc; rfl
  | cons a l ih =>
    intro acc
    by_cases h : P a
    · simp [List.foldl, List.filter_cons, h, ih]
    · simp [List.foldl, List.filter_cons, h, ih]

/-- The filter string of the mask of `S`: the entries of the members of `S` in the fixed
order, then the catch-all entry. -/
theorem buildFilter_maskOf (tr : String → String) (x : Extensions) (S : Finset Category) :
    buildFilter tr x (maskOf S)
      = (Category.ordered.filter (fun c => c ∈ S)).foldl (fun acc c => acc ++ entry tr x c) ""
          ++ (tr "All Files" ++ " (*.*)") := by
  rw [buildFilter_fold, ADD_FILTER_ALL_eq,
    foldl_guard (fun c => Int.land (maskOf S) c.flag ≠ 0) (fun c acc => ADD_FILTER tr x c acc)]
  have hf : (fun c : Category => decide (Int.land (maskOf S) c.flag ≠ 0))
      = (fun c : Category => decide (c ∈ S)) := by
    funext c
    exact decide_eq_decide.2 (land_maskOf_ne_zero_iff S c)
  have hg : (fun (acc : String) (c : Category) => ADD_FILTER tr x c acc)
      = (fun (acc : String) (c : Category) => acc ++ entry tr x c) := by
    funext acc c
    exact ADD_FILTER_eq tr x c acc
  rw [hf, hg]

/-- Character data of the entries appended one after the other. -/
theorem data_foldl_entries (x : Extensions) (l : List Category) : ∀ a : String,
    (l.foldl (fun acc c => acc ++ entry id x c) a ++ "All Files (*.*)").data
      = a.data ++ body x l := by
  induction l with
  | nil => intro a; simp [body]
  | cons c l ih =>
    intro a
    simp only [List.foldl, body]
    rw [ih, String.data_append, List.append_assoc]

/-- A pattern without the character `ch` matches at the front of `a ++ ch :: b` exactly when
it matches at the front of `a`. -/
theorem isPrefixOf_append_sep (ch : Char) (b : List Char) :
    ∀ (p a : List Char), ch ∉ p → p.isPrefixOf (a ++ ch :: b) = p.isPrefixOf a := by
  intro p
  induction p with
  | nil => intro a _; simp [List.isPrefixOf]
  | cons q p ih =>
    intro a h
    have hq : q ≠ ch := fun e => h (by simp [e])
    have hp : ch ∉ p := fun e => h (by simp [e])
    cases a with
    | nil => simp [List.isPrefixOf, hq]
    | cons c a => simp [List.isPrefixOf, ih a hp]

/-- No occurrence of a pattern without the character `ch` spans an occurrence of `ch`. -/
theorem countOcc_append_sep (p : List Char) (ch : Char) (b : List Char) (h : ch ∉ p) :
    ∀ a : List Char, countOcc p (a ++ ch :: b) = countOcc p a + countOcc p b := by
  intro a
  induction a with
  | nil =>
    have e := isPrefixOf_append_sep ch b p [] h
    simp only [List.nil_append] at e
    simp only [List.nil_append, countOcc, e]
  | cons c a ih =>
    have e := isPrefixOf_append_sep ch b p (c :: a) h
    simp only [List.cons_append] at e
    show (if p.isPrefixOf (c :: (a ++ ch :: b)) then 1 else 0) + countOcc p (a ++ ch :: b)
      = ((if p.isPrefixOf (c :: a) then 1 else 0) + countOcc p a) + countOcc p b
    rw [e, ih]
    omega

/-- Occurrences of a label in the entries of a list of categories followed by the catch-all
entry, when no extension list contains the label: one per listed copy of its category. -/
theorem countOcc_body (x : Extensions) (d : Category) (l : List Category)
    (hx : ∀ c ∈ l, occurrences d.label (x.of c) = 0) :
    ∀ first : Bool, countOcc d.label.data (sepBefore first ++ body x l) = l.count d := by
  have hopen : '(' ∉ d.label.data := by cases d <;> decide
  have hclose : ')' ∉ d.label.data := by cases d <;> decide
  have hspace : ∀ t : List Char, d.label.data.isPrefixOf (' ' :: t) = false := by
    intro t
    cases d <;> rfl
  induction l with
  | nil =>
    intro first
    have hnil : body x [] = "All Files (*.*)".data := rfl
    rw [hnil]
    cases d <;> cases first <;> decide
  | cons c l ih =>
    intro first
    have hent : sepBefore first ++ body x (c :: l)
        = (sepBefore first ++ c.label.data ++ [' ']) ++ '(' ::
            ((' ' :: (x.of c).data) ++ ')' :: (sepBefore false ++ body x l)) := by
      simp [body, entry, sepBefore, String.data_append]
    have hlab : countOcc d.label.data (sepBefore first ++ c.label.data ++ [' '])
        = if c = d then 1 else 0 := by
      cases d <;> cases c <;> cases first <;> decide
    have hext : countOcc d.label.data (' ' :: (x.of c).data) = 0 := by
      have h0 := hx c (List.mem_cons_self c l)
      simp only [occurrences] at h0
      simp only [countOcc, hspace, h0]
      rfl
    rw [hent, countOcc_append_sep _ _ _ hopen, countOcc_append_sep _ _ _ hclose, hlab, hext,
      ih (fun e he => hx e (List.mem_cons_of_mem c he)) false, List.count_cons]
    by_cases hcd : c = d
    · simp [hcd]
      omega
    · simp [hcd]

/-- The entries of a concatenation of two lists of categories. -/
theorem body_append (x : Extensions) (a b : List Category) :
    body x (a ++ b) = entriesData x a ++ body x b := by
  induction a with
  | nil => rfl
  | cons c a ih => simp [body, entriesData, ih]

/-- Two requested categories appear in the filter string in the fixed order: the label of
the one with the lower flag stands before the label of the other. -/
theorem labels_in_order (x : Extensions) (S : Finset Category) (c d : Category)
    (hc : c ∈ S) (hd : d ∈ S) (hlt : c.bit < d.bit) :
    ∃ u v w : String, buildFilter id x (maskOf S) = u ++ c.label ++ v ++ d.label ++ w := by
  have hpw : (Category.ordered.filter (fun c => decide (c ∈ S))).Pairwise
      (fun a b => a.bit < b.bit) := List.Pairwise.filter _ (by decide)
  have hcl : c ∈ Category.ordered.filter (fun c => decide (c ∈ S)) := by
    rw [List.mem_filter]
    exact ⟨by cases c <;> decide, by simpa using hc⟩
  have hdl : d ∈ Category.ordered.filter (fun c => decide (c ∈ S)) := by
    rw [List.mem_filter]
    exact ⟨by cases d <;> decide, by simpa using hd⟩
  obtain ⟨l1, r, hl⟩ := List.append_of_mem hcl
  rw [hl] at hpw hdl
  have hdr : d ∈ r := by
    rcases List.mem_append.1 hdl with h1 | h2
    · have := (List.pairwise_append.1 hpw).2.2 d h1 c (List.mem_cons_self c r)
      omega
    · rcases List.mem_cons.1 h2 with h3 | h3
      · rw [h3] at hlt
        omega
      · exact h3
  obtain ⟨l2, l3, hr⟩ := List.append_of_mem hdr
  have hdata : (buildFilter id x (maskOf S)).data
      = body x (Category.ordered.filter (fun c => c ∈ S)) := by
    rw [buildFilter_maskOf]
    have h := data_foldl_entries x (Category.ordered.filter (fun c => c ∈ S)) ""
    simpa using h
  refine ⟨String.mk (entriesData x l1),
    String.mk ((" ( " ++ x.of c ++ ")" ++ ";;").data ++ entriesData x l2),
    String.mk ((" ( " ++ x.of d ++ ")" ++ ";;").data ++ body x l3), ?_⟩
  apply String.ext
  rw [hdata, hl, hr, body_append, body, body_append, body]
  simp [entry, String.data_append, List.append_assoc]

/-- Claim C5: for every subset `S` of the categories (the non-empty ones in particular) the
filter string built from the mask of `S` is the entries of the members of `S`, one each, in
the order Media, Video, Audio, Playlist, Subtitle, followed by the catch-all entry. With the
identity as translation lookup the string ends with `"All Files (*.*)"`, the label of a
category that is contained in no extension list of a member of `S` occurs in the string
exactly once when the category is in `S` and not at all otherwise, and of two members of
`S` the label of the earlier category stands before the label of the later one. -/
theorem buildFilter_lists_requested_categories (x : Extensions) (S : Finset Category) :
    (∀ tr : String → String,
      buildFilter tr x (maskOf S)
        = (Category.ordered.filter (fun c => c ∈ S)).foldl
            (fun acc c => acc ++ entry tr x c) "" ++ (tr "All Files" ++ " (*.*)")) ∧
    "All Files (*.*)".data <:+ (buildFilter id x (maskOf S)).data ∧
    (∀ c : Category, (∀ d ∈ S, occurrences c.label (x.of d) = 0) →
      occurrences c.label (buildFilter id x (maskOf S)) = if c ∈ S then 1 else 0) ∧
    (∀ c d : Category, c ∈ S → d ∈ S → c.bit < d.bit →
      ∃ u v w : String, buildFilter id x (maskOf S) = u ++ c.label ++ v ++ d.label ++ w) := by
  have hdata : (buildFilter id x (maskOf S)).data
      = body x (Category.ordered.filter (fun c => c ∈ S)) := by
    rw [buildFilter_maskOf]
    have h := data_foldl_entries x (Category.ordered.filter (fun c => c ∈ S)) ""
    simpa using h
  refine ⟨fun tr => buildFilter_maskOf tr x S, ?_, ?_, labels_in_order x S⟩
  · rw [buildFilter_maskOf]
    simp only [id, String.data_append]
    exact List.suffix_append _ _
  · intro c hx
    have h := countOcc_body x c (Category.ordered.filter (fun c => c ∈ S))
      (fun d hd => hx d (by simpa using (List.mem_filter.1 hd).2)) true
    simp only [sepBefore, if_true, List.nil_append] at h
    simp only [occurrences]
    rw [hdata, h]
    have hnd : (Category.ordered.filter (fun c => decide (c ∈ S))).Nodup :=
      List.Nodup.filter _ (by decide)
    rw [List.count_eq_of_nodup hnd]
    have hmem : c ∈ Category.ordered := by cases c <;> decide
    simp [List.mem_filter, hmem]

/-- Instance of claim C5 for the subset Video, Audio and sample extension lists: the label
of Video occurs once, the label of Media does not occur. -/
theorem buildFilter_lists_requested_categories_witness :
    (∀ d ∈ ({Category.Video, Category.Audio} : Finset Category),
      occurrences Category.Video.label (sampleExtensions.of d) = 0) ∧
    buildFilter id sampleExtensions (maskOf {Category.Video, Category.Audio})
      = "Video Files ( *.avi;*.mkv);;Audio Files ( *.mp3;*.ogg);;All Files (*.*)" ∧
    occurrences Category.Video.label
      (buildFilter id sampleExtensions (maskOf {Category.Video, Category.Audio})) = 1 ∧
    occurrences Category.Media.label
      (buildFilter id sampleExtensions (maskOf {Category.Video, Category.Audio})) = 0 :=
  ⟨by decide, by decide,
   ((buildFilter_lists_requested_categories sampleExtensions
      {Category.Video, Category.Audio}).2.2.1 Category.Video (by decide)).trans (by decide),
   ((buildFilter_lists_requested_categories sampleExtensions
      {Category.Video, Category.Audio}).2.2.1 Category.Media (by decide)).trans (by decide)⟩
